import Mathlib

/-!
Shallow embedding of the slot-machine reel engine and spin session of this
repository, together with proofs about the claims of its specification.

The embedding follows the source:
* the reel manager (reel configuration constants, the tween helpers
  lerp / backout / tweenTo, startReelSpin, getVisibleTexturesAtWinLine and
  the per-frame ticker recycling loop of initReelManager), and
* the spin session (startSpin, checkWin) with its balance and spinning flag.

Scroll positions and symbol offsets are JS numbers; they are modelled as
exact rationals.  External randomness (Math.random draws) is modelled as an
input stream of texture indices.  Animation-frame timing is external input:
a tween trajectory is modelled as the list of position values the tween
writes on successive animation frames, always ending with the exact target
value, which is what tweenTo guarantees on its final frame.
-/

namespace Slot

/-! ## Reel configuration constants (reelManager source, top of file) -/

def CELL_HEIGHT : ℚ := 200

def NUM_VISIBLE_SYMBOLS : ℕ := 3

def NUM_SYMBOLS_PER_REEL_STRIP : ℕ := 10

/-- totalStripHeight as computed inside startReelSpin and the ticker loop:
NUM_SYMBOLS_PER_REEL_STRIP * CELL_HEIGHT. -/
def totalStripHeight : ℚ := (NUM_SYMBOLS_PER_REEL_STRIP : ℚ) * CELL_HEIGHT

/-- minFullSpins, declared inside startReelSpin. -/
def minFullSpins : ℕ := 5

lemma totalStripHeight_eq : totalStripHeight = 2000 := by
  norm_num [totalStripHeight, NUM_SYMBOLS_PER_REEL_STRIP, CELL_HEIGHT]

/-! ## JS number helpers

JS remainder a % m truncates the quotient toward zero, so the result takes
the sign of the dividend. -/

/-- Truncation toward zero of a rational, as JS division underlying % does. -/
def jsTrunc (q : ℚ) : ℤ := if 0 ≤ q then ⌊q⌋ else ⌈q⌉

/-- The JS remainder operator a % m on numbers (for m > 0). -/
def jsMod (p m : ℚ) : ℚ := p - m * (jsTrunc (p / m) : ℚ)

/-! ## Tween utilities (lerp, backout, tweenTo) -/

def lerp (a b t : ℚ) : ℚ := a + (b - a) * t

/-- The backout easing function used for the reel stop bounce. -/
def backout (amount : ℚ) (t : ℚ) : ℚ :=
  (t - 1) * (t - 1) * ((amount + 1) * (t - 1) + amount) + 1

/-- The value a tween writes on a frame at eased fraction f of the way. -/
def tweenValueAt (start target f : ℚ) : ℚ := lerp start target f

/-- tweenTo in the source has no return statement, so a JS call to it
evaluates to undefined.  This is the value stored by the assignment
reel.spinTween = tweenTo(...) in startReelSpin. -/
def tweenToReturnValue : Option Unit := none

/-! ## Reel data model (initReelManager reel object) -/

/-- One symbol sprite of a reel strip: its vertical offset y inside the reel
container and its currently assigned texture, identified by its index in the
slotTextures array. -/
structure ReelSymbol where
  y : ℚ
  texture : ℕ
deriving DecidableEq

/-- The reel object built by initReelManager. -/
structure Reel where
  position : ℚ
  previousPosition : ℚ
  symbols : List ReelSymbol
  spinTween : Option Unit
deriving DecidableEq

/-- The symbols a fresh reel is populated with: symbol j sits at
j * CELL_HEIGHT + CELL_HEIGHT / 2; its texture is a random draw made at
initialisation time, supplied here as texOf. -/
def initialSymbols (texOf : ℕ → ℕ) : List ReelSymbol :=
  (List.range NUM_SYMBOLS_PER_REEL_STRIP).map
    (fun j : ℕ => { y := (j : ℚ) * CELL_HEIGHT + CELL_HEIGHT / 2, texture := texOf j })

/-- A reel as initReelManager creates it. -/
def initReel (texOf : ℕ → ℕ) : Reel :=
  { position := 0, previousPosition := 0, symbols := initialSymbols texOf,
    spinTween := none }

/-! ## The per-frame ticker recycling loop (initReelManager, app.ticker.add) -/

/-- Recycling of one symbol after its offset has been shifted by the frame
delta: a symbol fully above the visible window is wrapped down by
totalStripHeight, a symbol fully below it is wrapped up by totalStripHeight,
and in either wrap case a fresh random texture is drawn, but only when
r.spinTween is truthy.  supply is the stream of pending Math.random texture
draws. -/
def recycleSymbol (spinActive : Bool) (supply : List ℕ) (s : ReelSymbol) :
    ReelSymbol × List ℕ :=
  if s.y + CELL_HEIGHT / 2 < 0 then
    if spinActive then
      ({ y := s.y + totalStripHeight, texture := supply.headD 0 }, supply.tail)
    else
      ({ s with y := s.y + totalStripHeight }, supply)
  else if s.y - CELL_HEIGHT / 2 > CELL_HEIGHT * (NUM_VISIBLE_SYMBOLS : ℚ) then
    if spinActive then
      ({ y := s.y - totalStripHeight, texture := supply.headD 0 }, supply.tail)
    else
      ({ s with y := s.y - totalStripHeight }, supply)
  else (s, supply)

/-- The inner for-loop of the ticker: every symbol is moved by the frame
delta and then recycled. -/
def advanceSymbols (spinActive : Bool) (deltaY : ℚ) :
    List ReelSymbol → List ℕ → List ReelSymbol × List ℕ
  | [], supply => ([], supply)
  | s :: rest, supply =>
    let hd := recycleSymbol spinActive supply { s with y := s.y + deltaY }
    let tl := advanceSymbols spinActive deltaY rest hd.2
    (hd.1 :: tl.1, tl.2)

/-- One ticker frame for one reel: deltaY = position - previousPosition,
previousPosition is brought up to date, and every symbol is advanced. -/
def tickReel (supply : List ℕ) (r : Reel) : Reel × List ℕ :=
  let deltaY := r.position - r.previousPosition
  let res := advanceSymbols r.spinTween.isSome deltaY r.symbols supply
  ({ r with previousPosition := r.position, symbols := res.1 }, res.2)

/-! ## startReelSpin: per-reel spin-target computation -/

def winningSymbolTargetYInStrip (target : ℕ) : ℚ := (target : ℚ) * CELL_HEIGHT

def offsetToCenterVisibleArea : ℚ := CELL_HEIGHT * 1

def finalDesiredReelPosition (target : ℕ) : ℚ :=
  offsetToCenterVisibleArea - winningSymbolTargetYInStrip target

/-- reel.position % totalStripHeight, bumped by totalStripHeight when
negative. -/
def currentReelPositionNormalized (pos : ℚ) : ℚ :=
  if jsMod pos totalStripHeight < 0 then jsMod pos totalStripHeight + totalStripHeight
  else jsMod pos totalStripHeight

/-- distanceToAlign = finalDesiredReelPosition - normalized position, bumped
by one totalStripHeight when negative. -/
def distanceToAlign (pos : ℚ) (target : ℕ) : ℚ :=
  if finalDesiredReelPosition target - currentReelPositionNormalized pos < 0 then
    finalDesiredReelPosition target - currentReelPositionNormalized pos + totalStripHeight
  else finalDesiredReelPosition target - currentReelPositionNormalized pos

/-- Total scroll distance of the spin: minFullSpins full strips plus the
alignment distance. -/
def spinDistance (pos : ℚ) (target : ℕ) : ℚ :=
  (minFullSpins : ℚ) * totalStripHeight + distanceToAlign pos target

/-- The tween target: reel.position + spinDistance. -/
def targetPosition (pos : ℚ) (target : ℕ) : ℚ := pos + spinDistance pos target

/-- The assignment reel.spinTween = tweenTo(...) performed by startReelSpin
when the spin of a reel begins. -/
def startSpinAssign (r : Reel) : Reel :=
  { r with spinTween := tweenToReturnValue }

/-! ## A whole spin of one reel

Reels are mutually independent: the tween of a reel writes only the position
of that reel, and the ticker handles each reel separately, so the spin of one
reel is modelled on its own.  On each intermediate animation frame the tween
writes an eased position and the ticker then advances the symbols; on the
final frame tweenTo writes the exact target and fires onComplete, which
clears spinTween before the ticker work of that frame, and afterwards the
free-running ticker keeps firing with the position now at rest. -/

/-- The intermediate animation frames of a spin: each element of positions
is the value the tween writes on one frame, after which the ticker runs. -/
def runSpinFrames : List ℚ → List ℕ → Reel → Reel × List ℕ
  | [], supply, r => (r, supply)
  | p :: ps, supply, r =>
    let st := tickReel supply { r with position := p }
    runSpinFrames ps st.2 st.1

/-- Ticker frames after the tween has finished: the position no longer
changes; one list element per frame. -/
def idleTicks : List Unit → List ℕ → Reel → Reel × List ℕ
  | [], supply, r => (r, supply)
  | _ :: ps, supply, r =>
    let st := tickReel supply r
    idleTicks ps st.2 st.1

/-- A completed non-forced spin of one reel with requested target symbol
index target: startReelSpin computes the tween target and stores the result
of tweenTo in spinTween; the tween then runs through mid intermediate
frames; on its last frame it writes the exact target position and onComplete
sets spinTween to null; post further ticker frames follow. -/
def completedSpin (mid : List ℚ) (post : List Unit) (supply : List ℕ)
    (target : ℕ) (r : Reel) : Reel × List ℕ :=
  let tp := targetPosition r.position target
  let r0 := startSpinAssign r
  let st := runSpinFrames mid supply r0
  let r2 : Reel := { st.1 with position := tp, spinTween := none }
  idleTicks post st.2 r2

/-! ## getVisibleTexturesAtWinLine -/

/-- Centre of the middle visible slot: CELL_HEIGHT * 1 + CELL_HEIGHT / 2. -/
def targetCenterY : ℚ := CELL_HEIGHT * 1 + CELL_HEIGHT / 2

def tolerance : ℚ := 5

/-- The per-reel body of getVisibleTexturesAtWinLine: the texture of the
first symbol whose offset is within tolerance of the win-line centre, none
if no symbol matches. -/
def middleSymbolTexture (r : Reel) : Option ℕ :=
  (r.symbols.find? (fun s => |s.y - targetCenterY| < tolerance)).map
    (fun s => s.texture)

def getVisibleTexturesAtWinLine (reels : List Reel) : List (Option ℕ) :=
  reels.map middleSymbolTexture

/-! ## Completion aggregation of startReelSpin

reelsStopping starts at 0; the tween of each reel fires onComplete exactly once,
incrementing the counter; the promise is resolved when the counter equals
reels.length.  The events list holds the reel indices in completion order;
the result is (final counter value, number of resolve calls). -/

def spinAggregateAux (n : ℕ) : ℕ → ℕ → List ℕ → ℕ × ℕ
  | reelsStopping, fires, [] => (reelsStopping, fires)
  | reelsStopping, fires, _ :: es =>
    spinAggregateAux n (reelsStopping + 1)
      (if reelsStopping + 1 = n then fires + 1 else fires) es

def spinAggregate (n : ℕ) (events : List ℕ) : ℕ × ℕ :=
  spinAggregateAux n 0 0 events

/-! ## Spin session (slotGame source) -/

def SPIN_COST : ℤ := 100

def winAmount : ℤ := 500

structure GameState where
  balance : ℤ
  spinning : Bool
deriving DecidableEq

/-- What the synchronous entry of startSpin does before any animation:
nothing when already spinning; a modal insufficient-funds message and
nothing else when balance < SPIN_COST; otherwise the cost is deducted and
the spinning flag set. -/
inductive SpinRequestEffect where
  | noop
  | insufficientFunds
  | spinStarted
deriving DecidableEq

def startSpinEntry (st : GameState) : GameState × SpinRequestEffect :=
  if st.spinning then (st, SpinRequestEffect.noop)
  else if st.balance < SPIN_COST then (st, SpinRequestEffect.insufficientFunds)
  else ({ balance := st.balance - SPIN_COST, spinning := true },
    SpinRequestEffect.spinStarted)

/-- The win or loss feedback checkWin always emits: a styled win message
with the payout (plus the fireworks sequence) or a styled loss message. -/
inductive UIOutcome where
  | winShown (amount : ℤ)
  | lossShown
deriving DecidableEq

/-- The allMatch test of checkWin: every sampled texture is non-null and
identical to the first sampled texture. -/
def checkWinAllMatch (actualVisibleTextures : List (Option ℕ)) : Bool :=
  let firstActualTexture := actualVisibleTextures.headD none
  actualVisibleTextures.all
    (fun texture => texture.isSome && decide (texture = firstActualTexture))

/-- checkWin: on allMatch the fixed winAmount is credited and the win
message shown, otherwise the balance is untouched and the loss message
shown. -/
def checkWin (balance : ℤ) (actualVisibleTextures : List (Option ℕ)) :
    ℤ × UIOutcome :=
  if checkWinAllMatch actualVisibleTextures then
    (balance + winAmount, UIOutcome.winShown winAmount)
  else (balance, UIOutcome.lossShown)

/-- Invariant of a reel of this game, from initialisation into and out of
any number of spins: spinTween is not truthy (in this code that is always
the case, because tweenTo returns undefined), the strip holds its full
complement of symbols, the texture of slot j is still its initial draw
texOf j, and the offset of slot j stays congruent to its initial offset
plus the scroll bookkeeping, modulo totalStripHeight. -/
def ReelInv (texOf : ℕ → ℕ) (r : Reel) : Prop :=
  r.spinTween = none ∧
  r.symbols.length = NUM_SYMBOLS_PER_REEL_STRIP ∧
  ∀ j (hj : j < r.symbols.length),
    (r.symbols.get ⟨j, hj⟩).texture = texOf j ∧
    ∃ k : ℤ, (r.symbols.get ⟨j, hj⟩).y - r.previousPosition =
      (j : ℚ) * CELL_HEIGHT + CELL_HEIGHT / 2 + (k : ℚ) * totalStripHeight

/-! ## Arithmetic facts about the spin-target computation -/

lemma strip_pos : (0 : ℚ) < totalStripHeight := by norm_num [totalStripHeight_eq]

lemma jsMod_bounds (p m : ℚ) (hm : 0 < m) : -m < jsMod p m ∧ jsMod p m < m := by
  unfold jsMod jsTrunc
  split_ifs with h
  · have h1 : ((⌊p / m⌋ : ℤ) : ℚ) ≤ p / m := Int.floor_le _
    have h2 : p / m < (⌊p / m⌋ : ℚ) + 1 := Int.lt_floor_add_one _
    have h3 : ((⌊p / m⌋ : ℤ) : ℚ) * m ≤ p := (le_div_iff₀ hm).mp h1
    have h4 : p < ((⌊p / m⌋ : ℚ) + 1) * m := (div_lt_iff₀ hm).mp h2
    constructor <;> nlinarith
  · have h1 : p / m ≤ ((⌈p / m⌉ : ℤ) : ℚ) := Int.le_ceil _
    have h2 : ((⌈p / m⌉ : ℚ) : ℚ) - 1 < p / m := by
      have := Int.ceil_lt_add_one (p / m)
      linarith
    have h3 : p ≤ ((⌈p / m⌉ : ℤ) : ℚ) * m := (div_le_iff₀ hm).mp h1
    have h4 : (((⌈p / m⌉ : ℚ) : ℚ) - 1) * m < p := (lt_div_iff₀ hm).mp h2
    constructor <;> nlinarith

lemma normalized_bounds (p : ℚ) :
    0 ≤ currentReelPositionNormalized p ∧
    currentReelPositionNormalized p < totalStripHeight := by
  obtain ⟨h1, h2⟩ := jsMod_bounds p totalStripHeight strip_pos
  unfold currentReelPositionNormalized
  split_ifs with h
  · constructor <;> linarith
  · constructor <;> linarith [not_lt.mp h]

lemma jsMod_sub_congr (p m : ℚ) : ∃ k : ℤ, p - jsMod p m = (k : ℚ) * m :=
  ⟨jsTrunc (p / m), by unfold jsMod; ring⟩

lemma normalized_sub_congr (p : ℚ) :
    ∃ k : ℤ, p - currentReelPositionNormalized p = (k : ℚ) * totalStripHeight := by
  obtain ⟨k, hk⟩ := jsMod_sub_congr p totalStripHeight
  unfold currentReelPositionNormalized
  split_ifs with h
  · exact ⟨k - 1, by push_cast; linarith⟩
  · exact ⟨k, hk⟩

lemma distanceToAlign_sub_congr (p : ℚ) (t : ℕ) :
    ∃ k : ℤ, distanceToAlign p t -
      (finalDesiredReelPosition t - currentReelPositionNormalized p) =
      (k : ℚ) * totalStripHeight := by
  unfold distanceToAlign
  split_ifs with h
  · exact ⟨1, by push_cast; ring⟩
  · exact ⟨0, by push_cast; ring⟩

lemma targetPosition_sub_congr (p : ℚ) (t : ℕ) :
    ∃ k : ℤ, targetPosition p t - finalDesiredReelPosition t =
      (k : ℚ) * totalStripHeight := by
  obtain ⟨k1, hk1⟩ := normalized_sub_congr p
  obtain ⟨k2, hk2⟩ := distanceToAlign_sub_congr p t
  refine ⟨k1 + k2 + (minFullSpins : ℤ), ?_⟩
  unfold targetPosition spinDistance
  push_cast
  linarith

lemma finalDesired_bounds (t : ℕ) (ht : t ≤ 9) :
    -1600 ≤ finalDesiredReelPosition t ∧ finalDesiredReelPosition t ≤ 200 := by
  have h : (t : ℚ) ≤ 9 := by exact_mod_cast ht
  have h0 : (0 : ℚ) ≤ (t : ℚ) := Nat.cast_nonneg t
  have hc : CELL_HEIGHT = 200 := rfl
  unfold finalDesiredReelPosition offsetToCenterVisibleArea winningSymbolTargetYInStrip
  rw [hc]
  constructor <;> nlinarith

lemma distanceToAlign_bounds (p : ℚ) (t : ℕ) (ht : t ≤ 9) :
    -totalStripHeight < distanceToAlign p t ∧
    distanceToAlign p t < totalStripHeight := by
  obtain ⟨hn0, hn1⟩ := normalized_bounds p
  obtain ⟨hf0, hf1⟩ := finalDesired_bounds t ht
  have hS : totalStripHeight = 2000 := totalStripHeight_eq
  unfold distanceToAlign
  split_ifs with h
  · constructor <;> linarith
  · constructor <;> linarith

/-- Claim C2, corrected part (counterexample to the claim as stated): with
the reel resting at scroll position 1800 (reachable: it is the stop
position left by a previous spin onto strip index 2) and target symbol
index 4, the alignment distance stays negative even after the single
+totalStripHeight adjustment, and the total scroll distance is strictly
below minFullSpins * totalStripHeight, so no decomposition into a
multiple-of-strip-height component of at least minFullSpins strips plus a
non-negative remainder exists. -/
theorem C2_counterexample :
    distanceToAlign 1800 4 = -400 ∧
    spinDistance 1800 4 = 9600 ∧
    spinDistance 1800 4 < (minFullSpins : ℚ) * totalStripHeight := by
  refine ⟨?_, ?_, ?_⟩ <;>
    norm_num [spinDistance, distanceToAlign, currentReelPositionNormalized,
      jsMod, jsTrunc, finalDesiredReelPosition, offsetToCenterVisibleArea,
      winningSymbolTargetYInStrip, totalStripHeight_eq, CELL_HEIGHT, minFullSpins]

/-- Claim C2, amended: for every current scroll position and every target
symbol index of the strip, the scroll distance computed at spin start is
strictly positive; it equals minFullSpins * totalStripHeight plus an
alignment remainder that lies strictly between -totalStripHeight and
totalStripHeight but may be negative, so the distance always exceeds
(minFullSpins - 1) * totalStripHeight and the reel advances forward. -/
theorem C2_amended (p : ℚ) (t : ℕ) (ht : t ≤ 9) :
    0 < spinDistance p t ∧
    spinDistance p t = (minFullSpins : ℚ) * totalStripHeight + distanceToAlign p t ∧
    -totalStripHeight < distanceToAlign p t ∧
    distanceToAlign p t < totalStripHeight ∧
    ((minFullSpins : ℚ) - 1) * totalStripHeight < spinDistance p t := by
  obtain ⟨h1, h2⟩ := distanceToAlign_bounds p t ht
  have hS : totalStripHeight = 2000 := totalStripHeight_eq
  have hm : (minFullSpins : ℚ) = 5 := by norm_num [minFullSpins]
  refine ⟨?_, rfl, h1, h2, ?_⟩
  · unfold spinDistance
    rw [hm, hS]
    rw [hS] at h1
    linarith
  · unfold spinDistance
    rw [hm, hS]
    rw [hS] at h1
    linarith

/-- Claim C2 witness: the amended statement instantiated at the
counterexample input. -/
theorem C2_amended_witness : 0 < spinDistance 1800 4 :=
  (C2_amended 1800 4 (by decide)).1

/-- Claim C10, confirmed: for every exact rational current scroll position
p and every target symbol index t, the tween target computed at spin start
is congruent to CELL_HEIGHT - t * CELL_HEIGHT modulo totalStripHeight, so
the stopping position puts strip index t exactly on the win line modulo the
strip height, even when the intermediate alignment distance stays negative
after the single +totalStripHeight adjustment. -/
theorem C10_theorem (p : ℚ) (t : ℕ) :
    ∃ k : ℤ, targetPosition p t - (CELL_HEIGHT - (t : ℚ) * CELL_HEIGHT) =
      (k : ℚ) * totalStripHeight := by
  obtain ⟨k, hk⟩ := targetPosition_sub_congr p t
  refine ⟨k, ?_⟩
  have hfd : finalDesiredReelPosition t = CELL_HEIGHT - (t : ℚ) * CELL_HEIGHT := by
    unfold finalDesiredReelPosition offsetToCenterVisibleArea winningSymbolTargetYInStrip
    ring
  rw [← hfd]
  exact hk

/-! ## Recycling and invariant lemmas for the ticker loop -/

lemma recycleSymbol_not_spinning (supply : List ℕ) (s : ReelSymbol) :
    (recycleSymbol false supply s).2 = supply ∧
    ((recycleSymbol false supply s).1).texture = s.texture ∧
    ∃ k : ℤ, ((recycleSymbol false supply s).1).y = s.y + (k : ℚ) * totalStripHeight := by
  unfold recycleSymbol
  simp only [Bool.false_eq_true, if_false]
  split_ifs with h1 h2
  · exact ⟨rfl, rfl, 1, by push_cast; ring⟩
  · exact ⟨rfl, rfl, -1, by push_cast; ring⟩
  · exact ⟨rfl, rfl, 0, by push_cast; ring⟩

lemma advanceSymbols_not_spinning (d : ℚ) (syms : List ReelSymbol) (supply : List ℕ) :
    advanceSymbols false d syms supply =
      (syms.map (fun s => (recycleSymbol false supply { s with y := s.y + d }).1), supply) := by
  induction syms with
  | nil => rfl
  | cons s rest ih =>
    simp only [advanceSymbols, List.map_cons]
    rw [(recycleSymbol_not_spinning supply { s with y := s.y + d }).1, ih]

lemma tickReel_spinTween (supply : List ℕ) (r : Reel) :
    (tickReel supply r).1.spinTween = r.spinTween := rfl

lemma tickReel_position (supply : List ℕ) (r : Reel) :
    (tickReel supply r).1.position = r.position := rfl

lemma tickReel_previousPosition (supply : List ℕ) (r : Reel) :
    (tickReel supply r).1.previousPosition = r.position := rfl

lemma tickReel_eq_of_tween_none (supply : List ℕ) (r : Reel) (h : r.spinTween = none) :
    tickReel supply r =
      ({ r with
          previousPosition := r.position
          symbols := r.symbols.map (fun s =>
            (recycleSymbol false supply
              { s with y := s.y + (r.position - r.previousPosition) }).1) },
        supply) := by
  unfold tickReel
  rw [h]
  simp only [Option.isSome_none]
  rw [advanceSymbols_not_spinning]

lemma initReel_inv (texOf : ℕ → ℕ) : ReelInv texOf (initReel texOf) := by
  refine ⟨rfl, by simp [initReel, initialSymbols], ?_⟩
  intro j hj
  have hj2 : j < NUM_SYMBOLS_PER_REEL_STRIP := by
    simpa [initReel, initialSymbols] using hj
  constructor
  · simp [initReel, initialSymbols, List.get_map, List.get_range]
  · refine ⟨0, ?_⟩
    simp [initReel, initialSymbols, List.get_map, List.get_range]

lemma tickReel_inv (texOf : ℕ → ℕ) (supply : List ℕ) (r : Reel)
    (h : ReelInv texOf r) : ReelInv texOf (tickReel supply r).1 := by
  obtain ⟨ht, hl, hsym⟩ := h
  rw [tickReel_eq_of_tween_none supply r ht]
  refine ⟨ht, by simpa using hl, ?_⟩
  intro j hj
  have hj2 : j < r.symbols.length := by simpa using hj
  obtain ⟨htex, k0, hy⟩ := hsym j hj2
  obtain ⟨hsup, htex2, k1, hy2⟩ := recycleSymbol_not_spinning supply
    { r.symbols.get ⟨j, hj2⟩ with
        y := (r.symbols.get ⟨j, hj2⟩).y + (r.position - r.previousPosition) }
  have hy3 : ((recycleSymbol false supply
      { r.symbols.get ⟨j, hj2⟩ with
          y := (r.symbols.get ⟨j, hj2⟩).y + (r.position - r.previousPosition) }).1).y
      = (r.symbols.get ⟨j, hj2⟩).y + (r.position - r.previousPosition)
        + (k1 : ℚ) * totalStripHeight := by simpa using hy2
  constructor
  · simp only [List.get_map]
    rw [htex2]
    exact htex
  · refine ⟨k0 + k1, ?_⟩
    simp only [List.get_map]
    rw [hy3]
    push_cast
    linarith

lemma runSpinFrames_inv (texOf : ℕ → ℕ) (ps : List ℚ) :
    ∀ (supply : List ℕ) (r : Reel), ReelInv texOf r →
      ReelInv texOf (runSpinFrames ps supply r).1 := by
  induction ps with
  | nil => intro supply r h; exact h
  | cons p ps ih =>
    intro supply r h
    have h2 : ReelInv texOf { r with position := p } := ⟨h.1, h.2.1, h.2.2⟩
    simpa [runSpinFrames] using
      ih _ _ (tickReel_inv texOf supply { r with position := p } h2)

lemma idleTicks_inv (texOf : ℕ → ℕ) (ps : List Unit) :
    ∀ (supply : List ℕ) (r : Reel), ReelInv texOf r →
      ReelInv texOf (idleTicks ps supply r).1 ∧
      (idleTicks ps supply r).1.position = r.position ∧
      (ps ≠ [] → (idleTicks ps supply r).1.previousPosition = r.position) := by
  induction ps with
  | nil =>
    intro supply r h
    exact ⟨h, rfl, fun hne => absurd rfl hne⟩
  | cons u ps ih =>
    intro supply r h
    have h1 := tickReel_inv texOf supply r h
    obtain ⟨g1, g2, g3⟩ := ih (tickReel supply r).2 (tickReel supply r).1 h1
    refine ⟨by simpa [idleTicks] using g1, ?_, ?_⟩
    · show (idleTicks ps (tickReel supply r).2 (tickReel supply r).1).1.position = r.position
      rw [g2, tickReel_position]
    · intro _
      show (idleTicks ps (tickReel supply r).2 (tickReel supply r).1).1.previousPosition
        = r.position
      cases ps with
      | nil => exact tickReel_previousPosition supply r
      | cons v ps2 =>
        rw [g3 (by simp), tickReel_position]

lemma completedSpin_eq (mid : List ℚ) (post : List Unit) (supply : List ℕ)
    (target : ℕ) (r : Reel) :
    completedSpin mid post supply target r =
      idleTicks post (runSpinFrames mid supply (startSpinAssign r)).2
        { (runSpinFrames mid supply (startSpinAssign r)).1 with
            position := targetPosition r.position target
            spinTween := none } := rfl

lemma runSpinFrames_spinTween (ps : List ℚ) :
    ∀ (supply : List ℕ) (r : Reel),
      ((runSpinFrames ps supply r).1).spinTween = r.spinTween := by
  induction ps with
  | nil => intro supply r; rfl
  | cons p ps ih =>
    intro supply r
    show ((runSpinFrames ps (tickReel supply { r with position := p }).2
      (tickReel supply { r with position := p }).1).1).spinTween = r.spinTween
    rw [ih, tickReel_spinTween]

/-! ## Claims about the reel engine -/

/-- Claim C1 (counterexample to the claim as stated): a completed non-forced
spin of a freshly initialised reel whose initial random textures all drew
texture 0, with requested target symbol index 1, an intermediate animation
frame at the genuine eased tween value (fraction 1/2 under backout 0.5) and
five trailing ticker frames.  The symbol identifier read at the win line is
0, the initial texture of the strip slot that lands on the centre, not the
requested target identifier 1. -/
theorem C1_counterexample :
    middleSymbolTexture
      (completedSpin [tweenValueAt 0 (targetPosition 0 1) (backout (1 / 2) (1 / 2))]
        [(), (), (), (), ()] [] 1 (initReel (fun _ => 0))).1 = some 0 ∧
    middleSymbolTexture
      (completedSpin [tweenValueAt 0 (targetPosition 0 1) (backout (1 / 2) (1 / 2))]
        [(), (), (), (), ()] [] 1 (initReel (fun _ => 0))).1 ≠ some 1 := by
  have h : middleSymbolTexture
      (completedSpin [tweenValueAt 0 (targetPosition 0 1) (backout (1 / 2) (1 / 2))]
        [(), (), (), (), ()] [] 1 (initReel (fun _ => 0))).1 = some 0 := by
    norm_num [completedSpin, runSpinFrames, idleTicks, tickReel, advanceSymbols,
      recycleSymbol, startSpinAssign, tweenToReturnValue, initReel, initialSymbols,
      middleSymbolTexture, targetPosition, spinDistance, distanceToAlign,
      currentReelPositionNormalized, jsMod, jsTrunc, finalDesiredReelPosition,
      offsetToCenterVisibleArea, winningSymbolTargetYInStrip, tweenValueAt, lerp,
      backout, List.range_succ, List.find?, minFullSpins,
      totalStripHeight, CELL_HEIGHT, NUM_VISIBLE_SYMBOLS, NUM_SYMBOLS_PER_REEL_STRIP,
      targetCenterY, tolerance]
  refine ⟨h, ?_⟩
  rw [h]
  decide

/-- Claim C1, amended: after any completed non-forced spin of a reel
satisfying the reel invariant (with at least one trailing ticker frame), the
strip keeps its full complement of symbols, every symbol still carries the
identifier it held before the spin (no identifier is ever reassigned,
because spinTween is never truthy), and the offset of slot j is congruent to
targetCenterY + (j - target) * CELL_HEIGHT modulo totalStripHeight, so the
slot whose strip index is the requested target is the one aligned with the
win line; the identifier read there is the pre-spin identifier of that slot,
not necessarily the requested target identifier. -/
theorem C1_amended (texOf : ℕ → ℕ) (r : Reel) (target : ℕ) (mid : List ℚ)
    (post : List Unit) (supply : List ℕ) (hr : ReelInv texOf r) (hpost : post ≠ []) :
    ((completedSpin mid post supply target r).1).symbols.length = NUM_SYMBOLS_PER_REEL_STRIP ∧
    ∀ j (hj : j < ((completedSpin mid post supply target r).1).symbols.length),
      (((completedSpin mid post supply target r).1).symbols.get ⟨j, hj⟩).texture = texOf j ∧
      ∃ k : ℤ,
        (((completedSpin mid post supply target r).1).symbols.get ⟨j, hj⟩).y -
          (targetCenterY + ((j : ℚ) - (target : ℚ)) * CELL_HEIGHT) =
          (k : ℚ) * totalStripHeight := by
  rw [completedSpin_eq]
  have h0 : ReelInv texOf (startSpinAssign r) := ⟨rfl, hr.2.1, hr.2.2⟩
  have h1 := runSpinFrames_inv texOf mid supply (startSpinAssign r) h0
  have h2 : ReelInv texOf
      { (runSpinFrames mid supply (startSpinAssign r)).1 with
          position := targetPosition r.position target
          spinTween := none } := ⟨rfl, h1.2.1, h1.2.2⟩
  obtain ⟨h3, h4, h5⟩ := idleTicks_inv texOf post
    (runSpinFrames mid supply (startSpinAssign r)).2
    { (runSpinFrames mid supply (startSpinAssign r)).1 with
        position := targetPosition r.position target
        spinTween := none } h2
  have hprev : (idleTicks post (runSpinFrames mid supply (startSpinAssign r)).2
      { (runSpinFrames mid supply (startSpinAssign r)).1 with
          position := targetPosition r.position target
          spinTween := none }).1.previousPosition = targetPosition r.position target :=
    h5 hpost
  refine ⟨h3.2.1, ?_⟩
  intro j hj
  obtain ⟨htex, k, hy⟩ := h3.2.2 j hj
  refine ⟨htex, ?_⟩
  obtain ⟨k2, hk2⟩ := targetPosition_sub_congr r.position target
  refine ⟨k + k2, ?_⟩
  have hfd : targetCenterY + ((j : ℚ) - (target : ℚ)) * CELL_HEIGHT =
      finalDesiredReelPosition target + ((j : ℚ) * CELL_HEIGHT + CELL_HEIGHT / 2) := by
    unfold targetCenterY finalDesiredReelPosition offsetToCenterVisibleArea
      winningSymbolTargetYInStrip
    ring
  rw [hfd]
  rw [hprev] at hy
  push_cast
  linarith

/-- Claim C1 witness: the amended statement instantiated at a concrete
completed spin. -/
theorem C1_amended_witness :
    ((completedSpin [] [()] [] 1 (initReel (fun _ => 0))).1).symbols.length =
      NUM_SYMBOLS_PER_REEL_STRIP :=
  (C1_amended (fun _ => 0) (initReel (fun _ => 0)) 1 [] [()] []
    (initReel_inv (fun _ => 0)) (by decide)).1

/-- Claim C3 (code-bug evaluation at the failing input): one ticker frame of
a reel whose spin is in flight, the tween having written position 9375 of a
spin from 0 toward 10000.  Strip slot 1 (initial texture 1) moves past the
bottom edge and is wrapped by -totalStripHeight from 9675 to 7675, but its
identifier stays 1 and the stream of pending random draws (all 7) is left
untouched: no reassignment happens although a spin animation is active,
because startReelSpin stored the undefined return value of tweenTo in
spinTween, so the r.spinTween test of the ticker never passes. -/
theorem C3_theorem :
    (tickReel [7, 7, 7, 7, 7, 7, 7, 7, 7, 7]
        { startSpinAssign (initReel (fun j => j)) with position := 9375 }).1.symbols.get? 1
      = some { y := 7675, texture := 1 } ∧
    (tickReel [7, 7, 7, 7, 7, 7, 7, 7, 7, 7]
        { startSpinAssign (initReel (fun j => j)) with position := 9375 }).2
      = [7, 7, 7, 7, 7, 7, 7, 7, 7, 7] ∧
    (startSpinAssign (initReel (fun j => j))).spinTween = none := by
  refine ⟨?_, ?_, rfl⟩ <;>
    norm_num [tickReel, startSpinAssign, tweenToReturnValue, initReel, initialSymbols,
      NUM_SYMBOLS_PER_REEL_STRIP, List.range_succ, advanceSymbols, recycleSymbol,
      totalStripHeight, CELL_HEIGHT, NUM_VISIBLE_SYMBOLS]

/-- Claim C4 (code-bug evaluation): the spinTween field is never present.
At spin start, startReelSpin stores the result of the tweenTo call, which is
undefined because tweenTo has no return statement; the field stays absent
through every animation frame of the spin in flight, and onComplete later
sets it to null.  The claimed equivalence (present iff a spin is in flight)
fails in the only direction that can fail: during flight the field is
absent. -/
theorem C4_theorem (r : Reel) (mid : List ℚ) (supply : List ℕ) :
    tweenToReturnValue = none ∧
    (startSpinAssign r).spinTween = none ∧
    ((runSpinFrames mid supply (startSpinAssign r)).1).spinTween = none := by
  refine ⟨rfl, rfl, ?_⟩
  rw [runSpinFrames_spinTween]
  rfl

/-! ## Completion aggregation lemmas -/

lemma spinAggregateAux_ge (n : ℕ) (es : List ℕ) :
    ∀ c f, n ≤ c → (spinAggregateAux n c f es).2 = f := by
  induction es with
  | nil => intro c f h; rfl
  | cons e es ih =>
    intro c f h
    have hne : ¬ (c + 1 = n) := by omega
    simp only [spinAggregateAux, if_neg hne]
    exact ih (c + 1) f (by omega)

lemma spinAggregateAux_lt (n : ℕ) (es : List ℕ) :
    ∀ c f, c < n →
      (spinAggregateAux n c f es).2 = f + (if n ≤ c + es.length then 1 else 0) := by
  induction es with
  | nil =>
    intro c f h
    simp only [spinAggregateAux, List.length_nil, Nat.add_zero]
    rw [if_neg (by omega)]
    omega
  | cons e es ih =>
    intro c f h
    by_cases hc : c + 1 = n
    · simp only [spinAggregateAux, if_pos hc, List.length_cons]
      rw [spinAggregateAux_ge n es (c + 1) (f + 1) (le_of_eq hc.symm)]
      rw [if_pos (by omega)]
    · have h3 : c + 1 < n := by omega
      simp only [spinAggregateAux, if_neg hc, List.length_cons]
      rw [ih (c + 1) f h3]
      have h4 : c + 1 + es.length = c + (es.length + 1) := by omega
      rw [h4]

/-! ## Claims about the spin session and completion aggregation -/

/-- Claim C7, confirmed: for any positive number of reels and any order of
per-reel tween completions in which each reel completes exactly once, the
aggregate completion signal of startReelSpin resolves exactly once, at the
final completion; after any proper prefix of the completions, so while some
reel is still animating, it has not resolved at all. -/
theorem C7_theorem (n : ℕ) (events : List ℕ) (hn : 0 < n) (hlen : events.length = n)
    (hnd : events.Nodup) (hmem : ∀ e ∈ events, e < n) :
    (spinAggregate n events).2 = 1 ∧
    ∀ k, k < n → (spinAggregate n (events.take k)).2 = 0 := by
  constructor
  · rw [spinAggregate, spinAggregateAux_lt n events 0 0 hn, hlen]
    rw [if_pos (by omega)]
  · intro k hk
    rw [spinAggregate, spinAggregateAux_lt n (events.take k) 0 0 hn]
    rw [List.length_take, hlen]
    rw [if_neg (by omega)]

/-- Claim C7 witness: three reels completing in stagger order resolve the
signal exactly once. -/
theorem C7_witness : (spinAggregate 3 [0, 1, 2]).2 = 1 :=
  (C7_theorem 3 [0, 1, 2] (by decide) (by decide) (by decide) (by decide)).1

/-- Claim C5, confirmed: checkWin declares a win exactly when every sampled
win-line identifier is present (non-null) and all are equal to the first; on
win it credits the fixed winAmount of 500 to the balance and shows the win
message, otherwise it leaves the balance alone and shows the loss message; a
win or loss result is emitted in both cases. -/
theorem C5_theorem (balance : ℤ) (a b c : Option ℕ) :
    (checkWinAllMatch [a, b, c] = true ↔ (a ≠ none ∧ b = a ∧ c = a)) ∧
    ((a ≠ none ∧ b = a ∧ c = a) →
      checkWin balance [a, b, c] = (balance + winAmount, UIOutcome.winShown winAmount)) ∧
    (¬ (a ≠ none ∧ b = a ∧ c = a) →
      checkWin balance [a, b, c] = (balance, UIOutcome.lossShown)) := by
  have hiff : checkWinAllMatch [a, b, c] = true ↔ (a ≠ none ∧ b = a ∧ c = a) := by
    simp only [checkWinAllMatch, List.headD_cons, List.all_cons, List.all_nil,
      Bool.and_eq_true, Bool.and_true, decide_eq_true_eq, Option.isSome_iff_ne_none]
    constructor
    · rintro ⟨⟨ha, -⟩, ⟨-, hb⟩, ⟨-, hc⟩⟩
      exact ⟨ha, hb, hc⟩
    · rintro ⟨ha, hb, hc⟩
      subst hb
      subst hc
      simp [ha]
  refine ⟨hiff, ?_, ?_⟩
  · intro h
    unfold checkWin
    rw [if_pos (hiff.mpr h)]
  · intro h
    unfold checkWin
    rw [if_neg (fun hh => h (hiff.mp hh))]

/-- Claim C5 witness: three identical corn samples (texture index 4) win and
pay 500 on a balance of 900, matching the 1000 - 100 + 500 arithmetic of the
specification example. -/
theorem C5_witness :
    checkWin 900 [some 4, some 4, some 4] = (1400, UIOutcome.winShown 500) :=
  (C5_theorem 900 (some 4) (some 4) (some 4)).2.1 (by decide)

/-- Claim C6, confirmed: when the session is idle and the balance is
strictly below SPIN_COST, a spin request only surfaces the
insufficient-funds message: the whole game state is returned unchanged, no
balance is deducted, no spin starts, and the session stays idle. -/
theorem C6_theorem (st : GameState) (h1 : st.spinning = false)
    (h2 : st.balance < SPIN_COST) :
    startSpinEntry st = (st, SpinRequestEffect.insufficientFunds) ∧
    (startSpinEntry st).1.balance = st.balance ∧
    (startSpinEntry st).1.spinning = false := by
  have he : startSpinEntry st = (st, SpinRequestEffect.insufficientFunds) := by
    unfold startSpinEntry
    rw [h1]
    simp [h2]
  exact ⟨he, by rw [he], by rw [he]; exact h1⟩

/-- Claim C6 witness: balance 99 against cost 100. -/
theorem C6_witness :
    startSpinEntry { balance := 99, spinning := false } =
      ({ balance := 99, spinning := false }, SpinRequestEffect.insufficientFunds) :=
  (C6_theorem { balance := 99, spinning := false } rfl (by decide)).1

/-- Claim C8, confirmed: a spin request made while the session is spinning
returns immediately: the state is unchanged, nothing is deducted, no message
is shown and no outcome computation starts. -/
theorem C8_theorem (st : GameState) (h : st.spinning = true) :
    startSpinEntry st = (st, SpinRequestEffect.noop) := by
  unfold startSpinEntry
  rw [h]
  simp

/-- Claim C8 witness: a re-entrant request at balance 500. -/
theorem C8_witness :
    startSpinEntry { balance := 500, spinning := true } =
      ({ balance := 500, spinning := true }, SpinRequestEffect.noop) :=
  C8_theorem { balance := 500, spinning := true } rfl

/-- Claim C9 (counterexample to the claim as stated): with the first win-line
sample unresolvable (null) the core emits the ordinary loss outcome with the
balance untouched; no fatal InvariantViolation outcome exists anywhere in
the code, so nothing non-recoverable is signalled. -/
theorem C9_counterexample :
    checkWin 900 [none, some 0, some 0] = (900, UIOutcome.lossShown) := by
  norm_num [checkWin, checkWinAllMatch]

/-- Claim C9, amended: whenever any win-line sample is missing, checkWin
declares a normal loss (a missing sample can never satisfy the all-match
test), leaves the balance unchanged and emits the loss message; the code
signals no fatal InvariantViolation for an unresolvable centre symbol, and
it performs no reel-count check against the target list either. -/
theorem C9_amended (balance : ℤ) (ts : List (Option ℕ)) (h : none ∈ ts) :
    checkWin balance ts = (balance, UIOutcome.lossShown) := by
  have hfalse : checkWinAllMatch ts ≠ true := by
    intro hb
    have h2 := List.all_eq_true.mp hb none h
    simp at h2
  unfold checkWin
  rw [if_neg hfalse]

/-- Claim C9 witness: a missing middle sample yields a plain loss. -/
theorem C9_amended_witness :
    checkWin 777 [some 3, none, some 1] = (777, UIOutcome.lossShown) :=
  C9_amended 777 [some 3, none, some 1] (by decide)

end Slot
